import Mathlib

/-! # Verification of the Würstchen demo app (`wuerstchen_app.py`)

A shallow embedding of the orchestration shell of the repository's single
source file: the filename allocator `get_next_filename`, the seed resolver
`randomize_seed_fn`, the generation orchestrator `generate` (with the two
generative pipeline stages abstracted as stub stage functions, as the spec's
determinism property prescribes), and the width/height sliders of the demo UI.

Modelling conventions:

* The on-disk state of the `outputs` directory is a `Finset String` of
  existing file paths; `os.path.exists f` is `f ∈ disk`, and `img.save f`
  inserts `f`.
* Python's `f"outputs/img_{index:04d}.png"` is `filenameFor index`, built
  from the decimal digits of `index` zero-padded to width 4.
* The source's unbounded `while True` scan is embedded fuel-indexed
  (`scanLoop`); `disk.card + 1` iterations provably suffice (the termination
  theorem below), so `get_next_filename` takes that much fuel.
* `torch.Generator().manual_seed(seed)` is a generator whose state is set
  deterministically from `seed`, discarding the entropy the fresh generator
  was created with; the pipeline stages take and return the generator,
  modelling the single mutable generator object threaded through both stages.
* Python's `random.randint(a, b)` is modelled against its documented
  contract: it draws a value in `[a, b]` from the global RNG state and
  advances that state (explicit state passing).
-/

namespace WuerstchenApp

/-- The constant `MAX_SEED = np.iinfo(np.int32).max` (source line 24). -/
def MAX_SEED : Nat := 2147483647

/-! ## Decimal formatting: `f"outputs/img_{index:04d}.png"` -/

/-- The character of a single decimal digit. -/
def digitChar (d : Nat) : Char := Char.ofNat (48 + d)

/-- Little-endian decimal digits of `n`, fuel-indexed (structural recursion so
that the kernel can evaluate it; fuel `n` suffices, see `evalLE_digitsFuel`). -/
def digitsFuel : Nat → Nat → List Nat
  | _, 0 => []
  | 0, _ + 1 => []
  | fuel + 1, n + 1 => (n + 1) % 10 :: digitsFuel fuel ((n + 1) / 10)

/-- Little-endian decimal digits of `n`. -/
def decimalDigits (n : Nat) : List Nat := digitsFuel n n

/-- The decimal representation of `n`, most significant digit first. -/
def decimalChars (n : Nat) : List Char := ((decimalDigits n).map digitChar).reverse

/-- Python's `{n:04d}`: the decimal representation of `n` zero-padded on the
left to at least four characters. -/
def pad4chars (n : Nat) : List Char :=
  let s := decimalChars n
  if s.length < 4 then List.replicate (4 - s.length) '0' ++ s else s

/-- The path from source line 79: `f"outputs/img_{index:04d}.png"`. -/
def filenameFor (index : Nat) : String :=
  "outputs/img_" ++ String.mk (pad4chars index) ++ ".png"

/-! ## Filename allocator: `get_next_filename` (source lines 76–82) -/

/-- The scan loop of `get_next_filename`, fuel-indexed: starting from `index`,
return the first pattern path not present on disk; `none` when the fuel runs
out before a free path is found. -/
def scanLoop (disk : Finset String) : Nat → Nat → Option String
  | 0, _ => none
  | fuel + 1, index =>
    let filename := filenameFor index
    if filename ∈ disk then scanLoop disk fuel (index + 1) else some filename

/-- The allocator `get_next_filename`: scan from index 1 for the first free
pattern path.
Fuel `disk.card + 1` provably suffices (see the termination theorem), so the
`getD` default is never reached. -/
def get_next_filename (disk : Finset String) : String :=
  (scanLoop disk (disk.card + 1) 1).getD ""

/-! ## Seed resolver: `randomize_seed_fn` (source lines 84–87) -/

/-- Python `random.randint a b`, modelled against its documented contract:
returns a value in `[a, b]` drawn from the global RNG state, advancing the
state. State passing is explicit. -/
def randint (a b : Nat) (rng : Nat) : Nat × Nat :=
  (a + rng % (b - a + 1), rng + 1)

/-- The resolver `randomize_seed_fn(seed, randomize_seed)`: when `randomize_seed` is set,
draw a fresh seed via `random.randint(0, MAX_SEED)`; otherwise return the
input seed. The global RNG state is passed explicitly and returned. -/
def randomize_seed_fn (seed : Nat) (randomize_seed : Bool) (rng : Nat) :
    Nat × Nat :=
  if randomize_seed then
    let r := randint 0 MAX_SEED rng
    (r.1, r.2)
  else
    (seed, rng)

/-! ## Generation orchestrator: `generate` (source lines 89–130) -/

/-- A `torch.Generator()`: a pseudo-random generator with an abstract internal
state. A fresh generator's state comes from ambient entropy; `manual_seed`
overwrites the state with a function of the seed alone. -/
structure TorchGenerator where
  state : Nat
deriving DecidableEq

/-- Python `torch.Generator()`: a fresh generator, initialised from ambient
entropy. -/
def TorchGenerator.new (entropy : Nat) : TorchGenerator := ⟨entropy⟩

/-- Python `g.manual_seed(seed)`: the generator state is set deterministically
from `seed`, discarding whatever state `g` held. -/
def TorchGenerator.manual_seed (_g : TorchGenerator) (seed : Nat) :
    TorchGenerator := ⟨seed⟩

/-- The parameter record collected by the demo UI and passed to `generate`
(source lines 89–99). Guidance scales are slider values with step 0.1,
modelled as rationals. -/
structure GenerationRequest where
  prompt : String
  negative_prompt : String
  seed : Nat
  width : Nat
  height : Nat
  prior_num_inference_steps : Nat
  prior_guidance_scale : ℚ
  decoder_num_inference_steps : Nat
  decoder_guidance_scale : ℚ
  num_images_per_prompt : Nat

/-- The arguments `generate` passes to `prior_pipeline` (source lines 103–113),
the preview callback and the generator aside. -/
structure PriorArgs where
  prompt : String
  height : Nat
  width : Nat
  num_inference_steps : Nat
  negative_prompt : String
  guidance_scale : ℚ
  num_images_per_prompt : Nat
deriving DecidableEq

variable {Emb Img ε : Type}

/-- The arguments `generate` passes to `decoder_pipeline` (source lines
115–123), the generator aside; `Emb` is the opaque image-embedding tensor
type of the prior's output. -/
structure DecoderArgs (Emb : Type) where
  image_embeddings : Emb
  prompt : String
  num_inference_steps : Nat
  guidance_scale : ℚ
  negative_prompt : String

/-- The prior-stage arguments built from a request (source lines 103–113). -/
def priorArgsOf (req : GenerationRequest) : PriorArgs :=
  ⟨req.prompt, req.height, req.width, req.prior_num_inference_steps,
    req.negative_prompt, req.prior_guidance_scale, req.num_images_per_prompt⟩

/-- The decoder-stage arguments built from a request and the prior's output
(source lines 115–123). -/
def decoderArgsOf (req : GenerationRequest) (emb : Emb) : DecoderArgs Emb :=
  ⟨emb, req.prompt, req.decoder_num_inference_steps,
    req.decoder_guidance_scale, req.negative_prompt⟩

/-- A stub prior stage: from arguments and the generator, produce an
image-embedding batch and the advanced generator, or raise. -/
def PriorStage (Emb ε : Type) : Type :=
  PriorArgs → TorchGenerator → Except ε (Emb × TorchGenerator)

/-- A stub decoder stage: from arguments and the generator, produce a batch of
pixel images and the advanced generator, or raise. -/
def DecoderStage (Emb Img ε : Type) : Type :=
  DecoderArgs Emb → TorchGenerator → Except ε (List Img × TorchGenerator)

/-- The spec's GeneratedImage: a pixel image together with the filename it was
saved under. -/
structure GeneratedImage (Img : Type) where
  img : Img
  filename : String

/-- The save loop of `generate` (source lines 126–128): for each image in
batch order, allocate the next free filename and save the image there
(`save img filename`, which may raise). Returns the GeneratedImage list (or
the first error, stopping the loop there) together with the resulting disk
state; a successful save inserts the path into the disk. -/
def saveAll (save : Img → String → Except ε Unit) :
    List Img → Finset String → Except ε (List (GeneratedImage Img)) × Finset String
  | [], disk => (Except.ok [], disk)
  | img :: rest, disk =>
    let filename := get_next_filename disk
    match save img filename with
    | Except.error e => (Except.error e, disk)
    | Except.ok _ =>
      match saveAll save rest (insert filename disk) with
      | (Except.ok gis, disk') => (Except.ok (⟨img, filename⟩ :: gis), disk')
      | (Except.error e, disk') => (Except.error e, disk')

/-- The orchestrator `generate` (source lines 89–130): build a generator seeded from
`req.seed`, run the prior stage, feed its image embeddings and the same
generator to the decoder stage, save every decoded image under the next free
filename, and yield the decoded batch. Errors from either stage or from a
save propagate unhandled; `entropy` is the ambient entropy a fresh
`torch.Generator()` would start from, and `disk` the outputs directory. -/
def generate (prior : PriorStage Emb ε) (decoder : DecoderStage Emb Img ε)
    (save : Img → String → Except ε Unit) (req : GenerationRequest)
    (entropy : Nat) (disk : Finset String) :
    Except ε (List Img) × Finset String :=
  let generator := (TorchGenerator.new entropy).manual_seed req.seed
  match prior (priorArgsOf req) generator with
  | Except.error e => (Except.error e, disk)
  | Except.ok (emb, generator) =>
    match decoder (decoderArgsOf req emb) generator with
    | Except.error e => (Except.error e, disk)
    | Except.ok (decoder_output, _) =>
      match saveAll save decoder_output disk with
      | (Except.error e, disk') => (Except.error e, disk')
      | (Except.ok _, disk') => (Except.ok decoder_output, disk')

/-! ## Demo UI sliders (source lines 177–206) -/

/-- A Gradio slider component: the UI constrains the submitted value to
`[minimum, maximum]` (out-of-range input is rejected or clamped by the
frontend before the bound function is invoked). -/
structure Slider where
  minimum : Nat
  maximum : Nat
  step : Nat
  value : Nat

/-- The values a slider can submit: within its configured bounds. -/
def Slider.admits (s : Slider) (v : Nat) : Prop :=
  s.minimum ≤ v ∧ v ≤ s.maximum

/-- The demo's Width slider (source lines 186–192): minimum 1024, maximum
`MAX_IMAGE_SIZE` (environment-configured, default 2048), step 512. -/
def width_slider (maxImageSize : Nat) : Slider :=
  { minimum := 1024, maximum := maxImageSize, step := 512, value := 1024 }

/-- The demo's Height slider (source lines 193–199): same bounds as Width. -/
def height_slider (maxImageSize : Nat) : Slider :=
  { minimum := 1024, maximum := maxImageSize, step := 512, value := 1024 }

/-- A request holding the default parameter values of `generate`'s signature
(source lines 89–99): empty negative prompt, seed 0, 1024×1024, 60 prior
steps at guidance 4.0, 12 decoder steps at guidance 0.0, one image. -/
def sampleRequest : GenerationRequest :=
  { prompt := "An astronaut riding a green horse"
    negative_prompt := ""
    seed := 0
    width := 1024
    height := 1024
    prior_num_inference_steps := 60
    prior_guidance_scale := 4
    decoder_num_inference_steps := 12
    decoder_guidance_scale := 0
    num_images_per_prompt := 1 }

/-! ## Proof-side helper functions

`charsToNat` parses a (possibly zero-padded) decimal character list back to a
number; it is a retraction of `pad4chars`, which yields injectivity of the
filename pattern. -/

/-- The numeric value of a decimal digit character. -/
def charVal (c : Char) : Nat := c.toNat - 48

/-- Parse a big-endian decimal character list to a number. -/
def charsToNat (l : List Char) : Nat :=
  l.foldl (fun acc c => 10 * acc + charVal c) 0

/-- Evaluate a little-endian decimal digit list. -/
def evalLE (ds : List Nat) : Nat :=
  ds.foldr (fun d acc => d + 10 * acc) 0

/-! ## Lemmas: injectivity of the filename pattern -/

theorem evalLE_digitsFuel (fuel : Nat) :
    ∀ n, n ≤ fuel → evalLE (digitsFuel fuel n) = n := by
  induction fuel with
  | zero =>
    intro n hn
    interval_cases n
    rfl
  | succ fuel ih =>
    intro n hn
    match n with
    | 0 => rfl
    | n + 1 =>
      have hdiv : (n + 1) / 10 ≤ fuel := by
        have := Nat.div_lt_self (Nat.succ_pos n) (by norm_num : (1 : Nat) < 10)
        omega
      have h1 : evalLE ((n + 1) % 10 :: digitsFuel fuel ((n + 1) / 10)) =
          (n + 1) % 10 + 10 * evalLE (digitsFuel fuel ((n + 1) / 10)) := rfl
      show evalLE ((n + 1) % 10 :: digitsFuel fuel ((n + 1) / 10)) = n + 1
      rw [h1, ih _ hdiv]
      omega

theorem digitsFuel_mem_lt (fuel : Nat) :
    ∀ n d, d ∈ digitsFuel fuel n → d < 10 := by
  induction fuel with
  | zero =>
    intro n d hd
    cases n <;> simp [digitsFuel] at hd
  | succ fuel ih =>
    intro n d hd
    cases n with
    | zero => simp [digitsFuel] at hd
    | succ n =>
      simp only [digitsFuel, List.mem_cons] at hd
      rcases hd with h | h
      · omega
      · exact ih _ _ h

theorem charVal_digitChar {d : Nat} (hd : d < 10) :
    charVal (digitChar d) = d := by
  interval_cases d <;> decide

theorem charsToNat_append_singleton (l : List Char) (c : Char) :
    charsToNat (l ++ [c]) = 10 * charsToNat l + charVal c := by
  simp [charsToNat, List.foldl_append]

theorem charsToNat_rev_map :
    ∀ ds : List Nat, (∀ d ∈ ds, d < 10) →
      charsToNat ((ds.map digitChar).reverse) = evalLE ds := by
  intro ds
  induction ds with
  | nil => intro _; rfl
  | cons d ds ih =>
    intro h
    have hd : d < 10 := h d (List.mem_cons_self d ds)
    have hds : ∀ x ∈ ds, x < 10 := fun x hx => h x (List.mem_cons_of_mem _ hx)
    have hrev : ((d :: ds).map digitChar).reverse =
        (ds.map digitChar).reverse ++ [digitChar d] := by simp
    have hLE : evalLE (d :: ds) = d + 10 * evalLE ds := rfl
    rw [hrev, charsToNat_append_singleton, ih hds, charVal_digitChar hd, hLE]
    omega

theorem charsToNat_replicate_append (l : List Char) :
    ∀ a : Nat, charsToNat (List.replicate a '0' ++ l) = charsToNat l := by
  intro a
  induction a with
  | zero => rfl
  | succ a ih =>
    have h : List.replicate (a + 1) '0' ++ l =
        '0' :: (List.replicate a '0' ++ l) := by
      simp [List.replicate_succ]
    have h0 : charsToNat ('0' :: (List.replicate a '0' ++ l)) =
        charsToNat (List.replicate a '0' ++ l) := rfl
    rw [h, h0]
    exact ih

theorem charsToNat_pad4chars (n : Nat) : charsToNat (pad4chars n) = n := by
  have hlt : ∀ d ∈ decimalDigits n, d < 10 := fun d hd =>
    digitsFuel_mem_lt n n d hd
  have hrev : charsToNat (decimalChars n) = n := by
    rw [decimalChars, charsToNat_rev_map _ hlt]
    exact evalLE_digitsFuel n n (le_refl n)
  simp only [pad4chars]
  split
  · rw [charsToNat_replicate_append]
    exact hrev
  · exact hrev

theorem pad4chars_injective {m n : Nat} (h : pad4chars m = pad4chars n) :
    m = n := by
  have := congrArg charsToNat h
  rwa [charsToNat_pad4chars, charsToNat_pad4chars] at this

theorem filenameFor_injective {m n : Nat} (h : filenameFor m = filenameFor n) :
    m = n := by
  apply pad4chars_injective
  have hdata := congrArg String.data h
  simp only [filenameFor, String.data_append, List.append_assoc] at hdata
  have h1 := List.append_cancel_left hdata
  exact List.append_cancel_right h1

/-! ## Lemmas: the allocator scan -/

theorem exists_free_index (disk : Finset String) :
    ∃ k, k ≤ disk.card ∧ filenameFor (1 + k) ∉ disk := by
  by_contra hall
  push_neg at hall
  have hinj : Function.Injective (fun k : Nat => filenameFor (1 + k)) := by
    intro a b hab
    have := filenameFor_injective hab
    omega
  have hsub : (Finset.range (disk.card + 1)).image
      (fun k => filenameFor (1 + k)) ⊆ disk := by
    intro f hf
    simp only [Finset.mem_image, Finset.mem_range] at hf
    obtain ⟨k, hk, rfl⟩ := hf
    exact hall k (by omega)
  have hcard : ((Finset.range (disk.card + 1)).image
      (fun k => filenameFor (1 + k))).card = disk.card + 1 := by
    rw [Finset.card_image_of_injective _ hinj, Finset.card_range]
  have := Finset.card_le_card hsub
  omega

theorem scanLoop_isSome_of_free (disk : Finset String) :
    ∀ fuel start k, k < fuel → filenameFor (start + k) ∉ disk →
      (scanLoop disk fuel start).isSome := by
  intro fuel
  induction fuel with
  | zero =>
    intro start k hk _
    omega
  | succ fuel ih =>
    intro start k hk hfree
    simp only [scanLoop]
    by_cases hmem : filenameFor start ∈ disk
    · rw [if_pos hmem]
      cases k with
      | zero => exact absurd hmem (by simpa using hfree)
      | succ k' =>
        refine ih (start + 1) k' (by omega) ?_
        have harith : start + 1 + k' = start + (k' + 1) := by omega
        rw [harith]
        exact hfree
    · rw [if_neg hmem]
      rfl

theorem scanLoop_eq_some (disk : Finset String) :
    ∀ fuel start f, scanLoop disk fuel start = some f →
      ∃ r, f = filenameFor r ∧ start ≤ r ∧ f ∉ disk ∧
        ∀ j, start ≤ j → j < r → filenameFor j ∈ disk := by
  intro fuel
  induction fuel with
  | zero =>
    intro start f h
    simp [scanLoop] at h
  | succ fuel ih =>
    intro start f h
    simp only [scanLoop] at h
    by_cases hmem : filenameFor start ∈ disk
    · rw [if_pos hmem] at h
      obtain ⟨r, rfl, hr1, hr2, hr3⟩ := ih (start + 1) f h
      refine ⟨r, rfl, by omega, hr2, ?_⟩
      intro j hj1 hj2
      rcases Nat.eq_or_lt_of_le hj1 with rfl | hlt
      · exact hmem
      · exact hr3 j (by omega) hj2
    · rw [if_neg hmem] at h
      obtain rfl : filenameFor start = f := by simpa using h
      exact ⟨start, rfl, le_refl _, hmem,
        fun j hj1 hj2 => absurd hj2 (by omega)⟩

theorem get_next_filename_spec (disk : Finset String) :
    ∃ r, 1 ≤ r ∧ get_next_filename disk = filenameFor r ∧
      filenameFor r ∉ disk ∧ ∀ j, 1 ≤ j → j < r → filenameFor j ∈ disk := by
  obtain ⟨k, hk, hfree⟩ := exists_free_index disk
  have hsome := scanLoop_isSome_of_free disk (disk.card + 1) 1 k (by omega) hfree
  obtain ⟨f, hf⟩ := Option.isSome_iff_exists.mp hsome
  obtain ⟨r, rfl, hr1, hr2, hr3⟩ := scanLoop_eq_some disk _ _ _ hf
  refine ⟨r, hr1, ?_, hr2, hr3⟩
  rw [get_next_filename, hf]
  rfl

/-! ## Lemmas: the save loop -/

theorem saveAll_mono (save : Img → String → Except ε Unit) :
    ∀ (imgs : List Img) (disk : Finset String),
      disk ⊆ (saveAll save imgs disk).2 := by
  intro imgs
  induction imgs with
  | nil =>
    intro disk
    exact Finset.Subset.refl disk
  | cons img rest ih =>
    intro disk
    simp only [saveAll]
    cases hsave : save img (get_next_filename disk) with
    | error e => exact Finset.Subset.refl disk
    | ok u =>
      have hsub := ih (insert (get_next_filename disk) disk)
      rcases hp : saveAll save rest (insert (get_next_filename disk) disk)
        with ⟨res, disk'⟩
      rw [hp] at hsub
      cases res <;>
      · dsimp only
        dsimp only at hsub
        exact Finset.Subset.trans (Finset.subset_insert _ _) hsub

theorem saveAll_ok_spec (save : Img → String → Except ε Unit)
    (hsave : ∀ i f, save i f = Except.ok ()) :
    ∀ (imgs : List Img) (disk : Finset String),
      ∃ gis disk', saveAll save imgs disk = (Except.ok gis, disk') ∧
        gis.map GeneratedImage.img = imgs ∧
        (gis.map GeneratedImage.filename).Nodup ∧
        (∀ gi ∈ gis, gi.filename ∉ disk ∧ gi.filename ∈ disk') ∧
        disk ⊆ disk' := by
  intro imgs
  induction imgs with
  | nil =>
    intro disk
    exact ⟨[], disk, rfl, rfl, List.nodup_nil, by simp, Finset.Subset.refl _⟩
  | cons img rest ih =>
    intro disk
    obtain ⟨gis, disk', heq, himg, hnd, hmem, hsub⟩ :=
      ih (insert (get_next_filename disk) disk)
    obtain ⟨r, hr1, hrEq, hrFree, _⟩ := get_next_filename_spec disk
    refine ⟨⟨img, get_next_filename disk⟩ :: gis, disk', ?_, ?_, ?_, ?_, ?_⟩
    · simp only [saveAll, hsave, heq]
    · simp [himg]
    · simp only [List.map_cons, List.nodup_cons]
      refine ⟨?_, hnd⟩
      intro hin
      simp only [List.mem_map] at hin
      obtain ⟨gi, hgi, hfn⟩ := hin
      have hni := (hmem gi hgi).1
      rw [hfn] at hni
      exact hni (Finset.mem_insert_self _ _)
    · intro gi hgi
      rcases List.mem_cons.mp hgi with rfl | hgi'
      · constructor
        · rw [hrEq]
          exact hrFree
        · exact hsub (Finset.mem_insert_self _ _)
      · exact ⟨fun hd => (hmem gi hgi').1 (Finset.mem_insert_of_mem hd),
          (hmem gi hgi').2⟩
    · exact Finset.Subset.trans (Finset.subset_insert _ _) hsub

/-! ## The claims -/

/-- C1: two `generate` calls with identical request parameters (seed included,
randomize disabled so the seed reaches `generate` unchanged) produce identical
results — images, errors and disk state alike — whatever ambient entropy each
call's fresh `torch.Generator()` started from: `manual_seed` overwrites the
generator state with a function of `request.seed` alone, and that one
generator is threaded through the prior stage and then the decoder stage. The
generative stages are stub functions, so equal inputs give equal outputs. -/
theorem generate_deterministic_from_seed (prior : PriorStage Emb ε)
    (decoder : DecoderStage Emb Img ε) (save : Img → String → Except ε Unit)
    (req : GenerationRequest) (disk : Finset String) (entropy₁ entropy₂ : Nat) :
    generate prior decoder save req entropy₁ disk =
      generate prior decoder save req entropy₂ disk := rfl

/-- C2: in any directory state that contains `img_0001.png` and `img_0003.png`
but not `img_0002.png`, `get_next_filename` returns `outputs/img_0002.png`:
the allocator fills the first gap rather than appending after the highest
existing index. -/
theorem get_next_filename_fills_first_gap (disk : Finset String)
    (h1 : filenameFor 1 ∈ disk) (_h3 : filenameFor 3 ∈ disk)
    (h2 : filenameFor 2 ∉ disk) :
    get_next_filename disk = "outputs/img_0002.png" := by
  obtain ⟨r, hr1, hrEq, hrFree, hrMin⟩ := get_next_filename_spec disk
  have hr_ne1 : r ≠ 1 := by
    intro h
    rw [h] at hrFree
    exact hrFree h1
  have hr_le2 : r ≤ 2 := by
    by_contra hgt
    exact h2 (hrMin 2 (by omega) (by omega))
  have hr2 : r = 2 := by omega
  rw [hrEq, hr2]
  decide

theorem get_next_filename_fills_first_gap_witness :
    get_next_filename {"outputs/img_0001.png", "outputs/img_0003.png"} =
      "outputs/img_0002.png" :=
  get_next_filename_fills_first_gap _ (by decide) (by decide) (by decide)

/-- C3: the demo's Width and Height sliders (minimum 1024, maximum the
configured `MAX_IMAGE_SIZE`) are the only sources of the width and height
arguments wired to `generate`; a slider admits exactly the values within its
bounds, so any admitted width/height is in `[1024, maxImageSize]`, and the
boundary values `min - 1` and `max + 1` are rejected. -/
theorem sliders_bound_width_height (maxImageSize w h : Nat) :
    ((width_slider maxImageSize).admits w → 1024 ≤ w ∧ w ≤ maxImageSize) ∧
    ((height_slider maxImageSize).admits h → 1024 ≤ h ∧ h ≤ maxImageSize) ∧
    ¬(width_slider maxImageSize).admits 1023 ∧
    ¬(width_slider maxImageSize).admits (maxImageSize + 1) ∧
    ¬(height_slider maxImageSize).admits 1023 ∧
    ¬(height_slider maxImageSize).admits (maxImageSize + 1) := by
  refine ⟨fun hw => hw, fun hh => hh, ?_, ?_, ?_, ?_⟩ <;>
  · intro hcontra
    simp only [Slider.admits, width_slider, height_slider] at hcontra
    omega

theorem sliders_bound_width_height_witness :
    (1024 ≤ 1536 ∧ 1536 ≤ 2048) ∧ ¬(width_slider 2048).admits 2049 :=
  ⟨(sliders_bound_width_height 2048 1536 1024).1
      ⟨by norm_num [width_slider], by norm_num [width_slider]⟩,
    (sliders_bound_width_height 2048 1536 1024).2.2.2.1⟩

/-- C4: with `randomize = false`, `randomize_seed_fn` returns exactly the
input seed and leaves the global RNG state untouched (no side effects). -/
theorem randomize_seed_fn_identity_when_not_randomizing (seed rng : Nat) :
    randomize_seed_fn seed false rng = (seed, rng) := rfl

/-- C5: with `randomize = true`, the seed returned by `randomize_seed_fn`
lies in `[0, MAX_SEED]` regardless of the input seed, where `MAX_SEED` is the
maximum 32-bit signed integer. -/
theorem randomize_seed_fn_range_when_randomizing (seed rng : Nat) :
    0 ≤ (randomize_seed_fn seed true rng).1 ∧
      (randomize_seed_fn seed true rng).1 ≤ MAX_SEED ∧
      MAX_SEED = 2 ^ 31 - 1 := by
  have h : (randomize_seed_fn seed true rng).1 = rng % (MAX_SEED + 1) := by
    simp [randomize_seed_fn, randint]
  have hlt : rng % (MAX_SEED + 1) < MAX_SEED + 1 :=
    Nat.mod_lt rng (Nat.succ_pos MAX_SEED)
  refine ⟨Nat.zero_le _, ?_, by norm_num [MAX_SEED]⟩
  omega

/-- C6: starting from an empty outputs directory and writing each returned
path before the next call, three successive `get_next_filename` calls return
`outputs/img_0001.png`, `outputs/img_0002.png`, `outputs/img_0003.png`, in
that order. -/
theorem first_three_filenames_from_empty :
    get_next_filename ∅ = "outputs/img_0001.png" ∧
    get_next_filename (insert (get_next_filename ∅) ∅) =
      "outputs/img_0002.png" ∧
    get_next_filename
        (insert (get_next_filename (insert (get_next_filename ∅) ∅))
          (insert (get_next_filename ∅) ∅)) =
      "outputs/img_0003.png" := by decide

/-- C7: when every save succeeds, the save loop over a decoder batch of N
images yields exactly N GeneratedImage entries, carrying the batch's images
in order, with N pairwise-distinct filenames, each persisted to the resulting
disk state. -/
theorem saveAll_batch_distinct_filenames (save : Img → String → Except ε Unit)
    (hsave : ∀ i f, save i f = Except.ok ()) (imgs : List Img)
    (disk : Finset String) :
    ∃ gis disk', saveAll save imgs disk = (Except.ok gis, disk') ∧
      gis.length = imgs.length ∧
      gis.map GeneratedImage.img = imgs ∧
      (gis.map GeneratedImage.filename).Nodup ∧
      ∀ gi ∈ gis, gi.filename ∈ disk' := by
  obtain ⟨gis, disk', heq, himg, hnd, hmem, hsub⟩ :=
    saveAll_ok_spec save hsave imgs disk
  refine ⟨gis, disk', heq, ?_, himg, hnd, fun gi hgi => (hmem gi hgi).2⟩
  have hlen := congrArg List.length himg
  simpa using hlen

theorem saveAll_batch_distinct_filenames_witness :
    ∃ gis disk',
      saveAll (fun (_ : Nat) (_ : String) => (Except.ok () : Except Unit Unit))
          [10, 20] ∅ = (Except.ok gis, disk') ∧
      gis.length = ([10, 20] : List Nat).length ∧
      gis.map GeneratedImage.img = [10, 20] ∧
      (gis.map GeneratedImage.filename).Nodup ∧
      ∀ gi ∈ gis, gi.filename ∈ disk' :=
  saveAll_batch_distinct_filenames _ (fun _ _ => rfl) [10, 20] ∅

/-- C8: for every directory state the allocated path does not yet exist on
disk, and the save loop only ever adds files — every file present before a
batch of saves is still present after, whatever the save outcomes; so a
single-threaded caller writing only to allocated paths never overwrites or
loses an existing output file. -/
theorem get_next_filename_fresh_and_saves_preserve (disk : Finset String) :
    get_next_filename disk ∉ disk ∧
      ∀ {I E : Type} (save : I → String → Except E Unit) (imgs : List I),
        disk ⊆ (saveAll save imgs disk).2 := by
  constructor
  · obtain ⟨r, _, hrEq, hrFree, _⟩ := get_next_filename_spec disk
    rw [hrEq]
    exact hrFree
  · intro I E save imgs
    exact saveAll_mono save imgs disk

/-- C9: `generate` contains no exception handling: an error from the prior
stage, the decoder stage, or any save is returned to the caller unchanged
(no retry, no catch), the disk is untouched by stage failures, and a save
failure keeps every image saved before it (final disk only grows — no
rollback). -/
theorem generate_propagates_errors_no_rollback (prior : PriorStage Emb ε)
    (decoder : DecoderStage Emb Img ε) (save : Img → String → Except ε Unit)
    (req : GenerationRequest) (entropy : Nat) (disk : Finset String) :
    (∀ e, prior (priorArgsOf req)
          ((TorchGenerator.new entropy).manual_seed req.seed) =
          Except.error e →
        generate prior decoder save req entropy disk = (Except.error e, disk)) ∧
    (∀ emb g e, prior (priorArgsOf req)
          ((TorchGenerator.new entropy).manual_seed req.seed) =
          Except.ok (emb, g) →
        decoder (decoderArgsOf req emb) g = Except.error e →
        generate prior decoder save req entropy disk = (Except.error e, disk)) ∧
    (∀ emb g imgs g' e, prior (priorArgsOf req)
          ((TorchGenerator.new entropy).manual_seed req.seed) =
          Except.ok (emb, g) →
        decoder (decoderArgsOf req emb) g = Except.ok (imgs, g') →
        (saveAll save imgs disk).1 = Except.error e →
        generate prior decoder save req entropy disk =
          (Except.error e, (saveAll save imgs disk).2)) ∧
    disk ⊆ (generate prior decoder save req entropy disk).2 := by
  refine ⟨?_, ?_, ?_, ?_⟩
  · intro e he
    simp only [generate, he]
  · intro emb g e hp hd
    simp only [generate, hp, hd]
  · intro emb g imgs g' e hp hd hs
    simp only [generate, hp, hd]
    rcases hsa : saveAll save imgs disk with ⟨res, disk'⟩
    rw [hsa] at hs
    dsimp only at hs
    rw [hs]
  · rcases hp : prior (priorArgsOf req)
        ((TorchGenerator.new entropy).manual_seed req.seed) with e | ⟨emb, g⟩
    · simp only [generate, hp]
      exact Finset.Subset.refl disk
    · rcases hd : decoder (decoderArgsOf req emb) g with e | ⟨imgs, g'⟩
      · simp only [generate, hp, hd]
        exact Finset.Subset.refl disk
      · have hmono := saveAll_mono save imgs disk
        rcases hsa : saveAll save imgs disk with ⟨res, disk'⟩
        rw [hsa] at hmono
        simp only [generate, hp, hd, hsa]
        cases res <;> dsimp only <;> exact hmono

theorem generate_propagates_errors_no_rollback_witness :
    generate
        (fun _ _ =>
          (Except.error "prior failed" : Except String (Unit × TorchGenerator)))
        (fun _ _ =>
          (Except.error "decoder failed" :
            Except String (List Nat × TorchGenerator)))
        (fun _ _ => Except.ok ()) sampleRequest 0 ∅ =
      (Except.error "prior failed", ∅) :=
  (generate_propagates_errors_no_rollback _ _ _ _ _ _).1 "prior failed" rfl

/-- C10: the allocator's scan terminates for every directory state in which
some index `1 + k` has no file: the loop strictly increases the index and
stops at the first free one, so any fuel beyond `k` already yields a result;
and since the directory is finite, fuel `disk.card + 1` (the fuel
`get_next_filename` uses) always yields a result. -/
theorem scanLoop_terminates (disk : Finset String) :
    (∀ k fuel, filenameFor (1 + k) ∉ disk → k < fuel →
        (scanLoop disk fuel 1).isSome) ∧
      (scanLoop disk (disk.card + 1) 1).isSome := by
  constructor
  · intro k fuel hfree hk
    exact scanLoop_isSome_of_free disk fuel 1 k hk hfree
  · obtain ⟨k, hk, hfree⟩ := exists_free_index disk
    exact scanLoop_isSome_of_free disk (disk.card + 1) 1 k (by omega) hfree

theorem scanLoop_terminates_witness :
    (scanLoop {"outputs/img_0001.png"} 2 1).isSome :=
  (scanLoop_terminates {"outputs/img_0001.png"}).1 1 2 (by decide) (by decide)

end WuerstchenApp
